import Mathlib

/-!
Verification of the chunk-manager frontend
(`src/neuroglancer/chunk_manager/frontend.ts`): the chunk lifecycle state
machine, the deadline-bounded update scheduler (`ChunkQueueManager`), the
content-addressed source cache (`ChunkManager.getChunkSource`), and the
`ChunkSource` container.

The embedding is shallow: JavaScript `Map` objects become association
lists, in-place object mutation becomes explicit state passing, thrown
exceptions become `Except` errors, and `setTimeout` scheduling is recorded
as data in the tick result (the delay that was requested, if any).  A
drain tick is modelled as instantaneous: the two reads of `Date.now()`
inside one tick (line 84 and line 75 of the source) see the same value
`now`.
-/

namespace ChunkFrontend

/-- Modelled from the spec: the tier-state enumeration `ChunkState`, which
lives in `neuroglancer/chunk_manager/base` (not included in the sources).
The spec names the states Remote, Resident, FastTier and Expired; the code
refers to them as `SYSTEM_MEMORY` (Resident), `GPU_MEMORY` (FastTier) and
`EXPIRED`. -/
inductive ChunkState where
  | GPU_MEMORY
  | SYSTEM_MEMORY
  | REMOTE
  | EXPIRED
deriving DecidableEq, Repr

/-- Structure `Chunk` (frontend.ts lines 28-43).  The `source` back-reference is
represented implicitly: a chunk lives inside its source's `chunks` map. -/
structure Chunk where
  state : ChunkState
deriving DecidableEq, Repr

/-- The `Chunk` constructor (line 29): every chunk starts with
`state = ChunkState.SYSTEM_MEMORY`. -/
def Chunk.init : Chunk := { state := ChunkState.SYSTEM_MEMORY }

/-- Method `Chunk.copyToGPU` (lines 36-38): sets the state to `GPU_MEMORY`. -/
def Chunk.copyToGPU (c : Chunk) : Chunk := { c with state := ChunkState.GPU_MEMORY }

/-- Method `Chunk.freeGPUMemory` (lines 40-42): sets the state to `SYSTEM_MEMORY`. -/
def Chunk.freeGPUMemory (c : Chunk) : Chunk := { c with state := ChunkState.SYSTEM_MEMORY }

/-! ### Association-list model of `Map` -/

/-- JavaScript `Map.get`: value of the first entry whose key matches, if any. -/
def mapGet {κ α : Type} [DecidableEq κ] : List (κ × α) → κ → Option α
  | [], _ => none
  | (k', v) :: rest, k => if k = k' then some v else mapGet rest k

/-- JavaScript `Map.set`: replace the entry for the key if present, else append. -/
def mapSet {κ α : Type} [DecidableEq κ] : List (κ × α) → κ → α → List (κ × α)
  | [], k, v => [(k, v)]
  | (k', v') :: rest, k, v =>
    if k = k' then (k, v) :: rest else (k', v') :: mapSet rest k v

/-- JavaScript `Map.delete`: remove the first entry whose key matches, if any. -/
def mapDelete {κ α : Type} [DecidableEq κ] : List (κ × α) → κ → List (κ × α)
  | [], _ => []
  | (k', v') :: rest, k =>
    if k = k' then rest else (k', v') :: mapDelete rest k

/-! ### Update records and errors -/

/-- An update record received over the `Chunk.update` RPC (lines 135-152):
`x['source']` (the RPC id of the target `ChunkSource`), `x['id']`,
`x['state']` and `x['new']`.  Records are immutable once enqueued; the
`nextUpdate` linkage field used by the intrusive queue is represented by
list structure instead. -/
structure UpdateRecord where
  source : Nat
  id : String
  state : ChunkState
  isNew : Bool
deriving DecidableEq, Repr

/-- The exceptions the frontend can raise during a drain tick. -/
inductive ChunkError where
  /-- `throw new Error('Not implemented.')` from `ChunkSource.getChunk`
  (line 215). -/
  | notImplemented
  /-- `throw new Error('INTERNAL ERROR: Invalid chunk state: ...')`
  (line 122). -/
  | invalidChunkState (s : ChunkState)
  /-- The TypeError raised at line 110 when `source.chunks.get(key)`
  returned `undefined` and `.state` is read from it. -/
  | missingChunk (id : String)
  /-- The TypeError raised when `rpc.get(update['source'])` yields no
  object and a property of it is accessed. -/
  | missingSource (rpcId : Nat)
  /-- The TypeError raised when `processPendingChunkUpdates` runs with
  `pendingChunkUpdates === null` (line 91 reads `update['source']`). -/
  | emptyQueue
deriving DecidableEq, Repr

/-! ### ChunkSource -/

/-- Structure `ChunkSource` (lines 187-221).  `hasGetChunk` records whether the
dynamic type of the source overrides the `getChunk` factory; the base
class does not. -/
structure ChunkSource where
  chunks : List (String × Chunk)
  hasGetChunk : Bool
deriving DecidableEq, Repr

/-- Method `ChunkSource.deleteChunk` (lines 203-205). -/
def ChunkSource.deleteChunk (s : ChunkSource) (key : String) : ChunkSource :=
  { s with chunks := mapDelete s.chunks key }

/-- Method `ChunkSource.addChunk` (lines 207-209). -/
def ChunkSource.addChunk (s : ChunkSource) (key : String) (c : Chunk) : ChunkSource :=
  { s with chunks := mapSet s.chunks key c }

/-- The default `ChunkSource.getChunk` (lines 214-216): throws
`Not implemented.` for every input. -/
def ChunkSource.getChunk (_s : ChunkSource) (_x : UpdateRecord) : Except ChunkError Chunk :=
  .error ChunkError.notImplemented

/-- Dynamic dispatch of the factory call `source.getChunk(update)` at
line 105: a subclass that overrides the factory constructs a fresh chunk
through the `Chunk` constructor (line 29, state `SYSTEM_MEMORY`); a source
that does not falls through to the default, which throws. -/
def getChunkDispatch (s : ChunkSource) (x : UpdateRecord) : Except ChunkError Chunk :=
  if s.hasGetChunk then .ok Chunk.init else s.getChunk x

/-! ### ChunkQueueManager -/

/-- Structure `ChunkQueueManager` (lines 46-133).  The intrusive singly-linked queue
(`pendingChunkUpdates` head, `pendingChunkUpdatesTail` tail, `nextUpdate`
links) is modelled as a list with its head first; the tail pointer is null
exactly when the list is empty.  `sources` models the RPC object table
consulted by `rpc.get(update['source'])`. -/
structure ChunkQueueManager where
  pendingChunkUpdates : List UpdateRecord
  chunkUpdateDeadline : Option Int
  chunkUpdateDelay : Nat
  sources : List (Nat × ChunkSource)
deriving DecidableEq, Repr

/-- The test at line 84: `deadline !== null && Date.now() > deadline`. -/
def deadlinePassed (m : ChunkQueueManager) (now : Int) : Bool :=
  match m.chunkUpdateDeadline with
  | none => false
  | some d => now > d

/-- The delay chosen by `scheduleChunkUpdate` (lines 72-81): `0` when no
deadline is set or the current time is before it, `chunkUpdateDelay`
otherwise. -/
def scheduleChunkUpdateDelay (m : ChunkQueueManager) (now : Int) : Nat :=
  match m.chunkUpdateDeadline with
  | none => 0
  | some deadline => if now < deadline then 0 else m.chunkUpdateDelay

/-- Everything observable about one call of `processPendingChunkUpdates`:
the manager state afterwards, whether the deadline branch was taken, the
`setTimeout` delay requested (if any), how many times
`visibleChunksChanged.dispatch()` ran, which record was popped (if any),
and whether the `getChunk` factory was invoked. -/
structure TickResult where
  mgr : ChunkQueueManager
  deferred : Bool
  scheduledDelay : Option Nat
  visibleDispatches : Nat
  processed : Option UpdateRecord
  factoryInvoked : Bool
deriving DecidableEq, Repr

/-- Lines 110-124: given the resolved chunk (`oldState = chunk.state`),
apply the tier transition when the target state differs from the current
one; an unknown target state throws.  Returns the updated source, the
number of `visibleChunksChanged` dispatches, and the factory flag passed
through.  In the source the chunk object is mutated in place while
already reachable from the map; writing the transitioned chunk back with
`addChunk` yields the same final map. -/
def applyTransition (source₁ : ChunkSource) (update : UpdateRecord)
    (chunk : Chunk) (factory : Bool) :
    Except ChunkError (ChunkSource × Nat × Bool) :=
  if update.state = chunk.state then
    .ok (source₁, 0, factory)
  else
    match update.state with
    | ChunkState.GPU_MEMORY =>
      .ok (source₁.addChunk update.id chunk.copyToGPU, 1, factory)
    | ChunkState.SYSTEM_MEMORY =>
      .ok (source₁.addChunk update.id chunk.freeGPUMemory, 0, factory)
    | s => .error (ChunkError.invalidChunkState s)

/-- Lines 101-124: resolve the chunk for a non-`EXPIRED` record (factory
call plus `addChunk` when `update['new']` is set, plain lookup otherwise,
lines 102-109) and then apply the tier transition. -/
def applyNonExpired (source : ChunkSource) (update : UpdateRecord) :
    Except ChunkError (ChunkSource × Nat × Bool) :=
  if update.isNew then
    match getChunkDispatch source update with
    | .error e => .error e
    | .ok c => applyTransition (source.addChunk update.id c) update c true
  else
    match mapGet source.chunks update.id with
    | none => .error (ChunkError.missingChunk update.id)
    | some c => applyTransition source update c false

/-- Lines 89-131 minus the deadline check: pop the head record, process
it, advance the queue, and schedule another tick (through
`scheduleChunkUpdate`) exactly when records remain. -/
def processOneRecord (m : ChunkQueueManager) (update : UpdateRecord)
    (rest : List UpdateRecord) (now : Int) : Except ChunkError TickResult :=
  match mapGet m.sources update.source with
  | none => .error (ChunkError.missingSource update.source)
  | some source =>
    let applied : Except ChunkError (ChunkSource × Nat × Bool) :=
      if update.state = ChunkState.EXPIRED then
        .ok (source.deleteChunk update.id, 0, false)
      else
        applyNonExpired source update
    match applied with
    | .error e => .error e
    | .ok (source', visible, factory) =>
      .ok { mgr := { m with pendingChunkUpdates := rest,
                            sources := mapSet m.sources update.source source' },
            deferred := false,
            scheduledDelay :=
              if rest.isEmpty then none else some (scheduleChunkUpdateDelay m now),
            visibleDispatches := visible,
            processed := some update,
            factoryInvoked := factory }

/-- Method `ChunkQueueManager.processPendingChunkUpdates` (lines 82-132).  If a
deadline is set and `now` is past it, nothing is processed and a re-check
is scheduled after `chunkUpdateDelay`; otherwise exactly the head record
of the queue is processed. -/
def processPendingChunkUpdates (m : ChunkQueueManager) (now : Int) :
    Except ChunkError TickResult :=
  if deadlinePassed m now then
    .ok { mgr := m, deferred := true, scheduledDelay := some m.chunkUpdateDelay,
          visibleDispatches := 0, processed := none, factoryInvoked := false }
  else
    match m.pendingChunkUpdates with
    | [] => .error ChunkError.emptyQueue
    | update :: rest => processOneRecord m update rest now

/-- The `Chunk.update` RPC handler (lines 135-152): append the record at
the queue tail; when the queue was empty (`pendingChunkUpdatesTail ==
null`) also call `scheduleChunkUpdate`.  The returned flag records whether
a tick was scheduled. -/
def chunkUpdateRPC (m : ChunkQueueManager) (x : UpdateRecord) :
    ChunkQueueManager × Bool :=
  if m.pendingChunkUpdates.isEmpty then
    ({ m with pendingChunkUpdates := [x] }, true)
  else
    ({ m with pendingChunkUpdates := m.pendingChunkUpdates ++ [x] }, false)

/-- Run up to `n` drain ticks, collecting the processed records in order;
stops early when the queue is empty. -/
def drainTicks : ChunkQueueManager → Int → Nat →
    Except ChunkError (ChunkQueueManager × List UpdateRecord)
  | m, _, 0 => .ok (m, [])
  | m, now, n + 1 =>
    if m.pendingChunkUpdates.isEmpty then .ok (m, [])
    else
      match processPendingChunkUpdates m now with
      | .error e => .error e
      | .ok r =>
        match drainTicks r.mgr now n with
        | .error e => .error e
        | .ok (m', tr) => .ok (m', r.processed.toList ++ tr)

/-! ### ChunkManager: the content-addressed source cache -/

/-- Construction parameters for a source, as carried by the `parameters`
field that `WithParameters` adds (lines 223-246): a record of named
fields, here with integer values. -/
abbrev Params := List (String × Int)

/-- The key object built by `ChunkManager.getChunkSource` (lines
176-178): `constructorFunction.encodeOptions(options)` extended with
`constructorId = getObjectId(constructorFunction)`.  For a source class
built by `WithParameters(ChunkSource, P)`, `encodeOptions` is the base
`ChunkSource.encodeOptions` (lines 218-220, which returns `\x7b\x7d`)
extended with the `parameters` field (lines 239-243). -/
structure KeyObject where
  parameters : Params
  constructorId : Nat
deriving DecidableEq, Repr

/-- Encoding `WithParameters(...).encodeOptions` over the base
`ChunkSource.encodeOptions`: the encoding of the options is exactly their
`parameters` field. -/
def encodeOptions (parameters : Params) : Params := parameters

/-- Modelled from the spec: `stableStringify`
(`neuroglancer/util/json`, not included in the sources) is a
deterministic canonical serialization, injective over semantically
distinct inputs and insensitive to incidental instance identity.  We
model the canonical key as the key object itself, which realizes exactly
those properties. -/
def stableStringify (k : KeyObject) : KeyObject := k

/-- Structure `ChunkManager` (lines 160-185).  `memoize` models the
`StringMemoize` cache mapping canonical keys to source instances;
instance identity is modelled by a `Nat` id, and `nextSourceId` supplies
the fresh id used when a new source is constructed. -/
structure ChunkManager where
  memoize : List (KeyObject × Nat)
  nextSourceId : Nat
deriving DecidableEq, Repr

/-- Method `ChunkManager.getChunkSource` (lines 174-184): build the canonical
key from the constructor identity and the encoded options, then return
the memoized instance for that key if one exists, otherwise construct a
fresh instance and cache it under the key. -/
def getChunkSource (m : ChunkManager) (constructorId : Nat) (options : Params) :
    ChunkManager × Nat :=
  let keyObject : KeyObject :=
    { parameters := encodeOptions options, constructorId := constructorId }
  let key := stableStringify keyObject
  match mapGet m.memoize key with
  | some instanceId => (m, instanceId)
  | none =>
    ({ memoize := mapSet m.memoize key m.nextSourceId,
       nextSourceId := m.nextSourceId + 1 },
     m.nextSourceId)

/-- Well-formedness of the registry, maintained by `getChunkSource`:
every cached instance id was allocated below `nextSourceId`, and no two
cache entries share an instance. -/
def managerWF (m : ChunkManager) : Bool :=
  m.memoize.all (fun kv => kv.2 < m.nextSourceId) &&
    (m.memoize.map Prod.snd).Nodup

/-! ### Capacity accounting -/

/-- Modelled from the spec: `AvailableCapacity`
(`neuroglancer/chunk_manager/base`, not included in the sources) tracks a
`(used, total)` pair per tier; the `ChunkQueueManager` constructor (lines
59-70) receives one budget each for GPU memory, system memory and
download. -/
structure AvailableCapacity where
  used : Nat
  total : Nat
deriving DecidableEq, Repr

/-- Modelled from the spec: promotion reserves fast-tier capacity for the
chunk's payload size and performs the tier copy; the copy itself is the
source's `Chunk.copyToGPU` (lines 36-38). -/
def promote (cap : AvailableCapacity) (c : Chunk) (size : Nat) :
    AvailableCapacity × Chunk :=
  ({ cap with used := cap.used + size }, c.copyToGPU)

/-- Modelled from the spec: demotion releases the fast-tier capacity
reserved for the chunk and performs the copy-back; the copy-back is the
source's `Chunk.freeGPUMemory` (lines 40-42). -/
def demote (cap : AvailableCapacity) (c : Chunk) (size : Nat) :
    AvailableCapacity × Chunk :=
  ({ cap with used := cap.used - size }, c.freeGPUMemory)

/-! ### Reachable chunk states -/

/-- A chunk state the frontend can actually store: `SYSTEM_MEMORY`
(set by the constructor and by `freeGPUMemory`) or `GPU_MEMORY`
(set by `copyToGPU`). -/
def chunkOk (c : Chunk) : Bool :=
  match c.state with
  | ChunkState.SYSTEM_MEMORY => true
  | ChunkState.GPU_MEMORY => true
  | _ => false

/-- Every chunk stored in the source's map is in a storable state. -/
def sourceOk (s : ChunkSource) : Bool :=
  s.chunks.all (fun kv => chunkOk kv.2)

/-- Every chunk of every source known to the manager is in a storable
state. -/
def managerChunksOk (m : ChunkQueueManager) : Bool :=
  m.sources.all (fun kv => sourceOk kv.2)

/-- The state the resolved chunk has at line 110 (`let oldState =
chunk.state`) when the record is processed: a record flagged new resolves
to a freshly constructed chunk (state `SYSTEM_MEMORY`); otherwise to the
chunk stored under the record's id, if any. -/
def recordOldState (source : ChunkSource) (u : UpdateRecord) : Option ChunkState :=
  if u.isNew then some ChunkState.SYSTEM_MEMORY
  else (mapGet source.chunks u.id).map Chunk.state

/-! ### Concrete fixtures used by the witness theorems -/

/-- A chunk resident in system memory. -/
def wChunkSys : Chunk := { state := ChunkState.SYSTEM_MEMORY }

/-- A chunk resident on the GPU. -/
def wChunkGpu : Chunk := { state := ChunkState.GPU_MEMORY }

/-- A source holding chunk `c1` in system memory, with an overridden
factory. -/
def wSource : ChunkSource := { chunks := [("c1", wChunkSys)], hasGetChunk := true }

/-- A source holding chunk `c1` on the GPU, with an overridden factory. -/
def wSourceGpu : ChunkSource := { chunks := [("c1", wChunkGpu)], hasGetChunk := true }

/-- An empty backend-only source: no chunks, factory not overridden. -/
def wSourceNoFactory : ChunkSource := { chunks := [], hasGetChunk := false }

/-- A record creating chunk `c2` directly in the fast tier. -/
def wRecNewGpu : UpdateRecord :=
  { source := 1, id := "c2", state := ChunkState.GPU_MEMORY, isNew := true }

/-- A record promoting the existing chunk `c1`. -/
def wRecPromote : UpdateRecord :=
  { source := 1, id := "c1", state := ChunkState.GPU_MEMORY, isNew := false }

/-- A record demoting the existing chunk `c1`. -/
def wRecDemote : UpdateRecord :=
  { source := 1, id := "c1", state := ChunkState.SYSTEM_MEMORY, isNew := false }

/-- A record expiring chunk `c1`. -/
def wRecExpired : UpdateRecord :=
  { source := 1, id := "c1", state := ChunkState.EXPIRED, isNew := false }

/-- A record carrying the invalid target state `REMOTE` for chunk `c1`. -/
def wRecInvalid : UpdateRecord :=
  { source := 1, id := "c1", state := ChunkState.REMOTE, isNew := false }

/-- A record referencing the absent chunk `c9` without the new flag. -/
def wRecMissing : UpdateRecord :=
  { source := 1, id := "c9", state := ChunkState.GPU_MEMORY, isNew := false }

/-- A manager with no deadline, source `1` set to `wSource`, and the given
queue. -/
def wMgr (q : List UpdateRecord) : ChunkQueueManager :=
  { pendingChunkUpdates := q, chunkUpdateDeadline := none,
    chunkUpdateDelay := 30, sources := [(1, wSource)] }

/-- A manager whose deadline (50) is already in the past at time 100. -/
def wMgrLate : ChunkQueueManager :=
  { pendingChunkUpdates := [wRecPromote], chunkUpdateDeadline := some 50,
    chunkUpdateDelay := 30, sources := [(1, wSource)] }

/-- A manager whose only source is the backend-only `wSourceNoFactory`. -/
def wMgrNoFactory (q : List UpdateRecord) : ChunkQueueManager :=
  { pendingChunkUpdates := q, chunkUpdateDeadline := none,
    chunkUpdateDelay := 30, sources := [(1, wSourceNoFactory)] }

/-- A two-record queue: promote `c1`, then demote it. -/
def wQ2 : List UpdateRecord := [wRecPromote, wRecDemote]

/-- The tick result of processing the head of `wQ2` from `wMgr wQ2` at
time 0. -/
def wTick2 : TickResult :=
  { mgr := { pendingChunkUpdates := [wRecDemote], chunkUpdateDeadline := none,
             chunkUpdateDelay := 30, sources := [(1, wSourceGpu)] },
    deferred := false, scheduledDelay := some 0, visibleDispatches := 1,
    processed := some wRecPromote, factoryInvoked := false }

/-- The manager left after fully draining `wMgr wQ2`. -/
def wMgrDrained : ChunkQueueManager :=
  { pendingChunkUpdates := [], chunkUpdateDeadline := none,
    chunkUpdateDelay := 30, sources := [(1, wSource)] }

/-- The source `wSource` after `wRecNewGpu` creates `c2` and promotes
it. -/
def wSourceAfterNew : ChunkSource :=
  { chunks := [("c1", wChunkSys), ("c2", wChunkGpu)], hasGetChunk := true }

/-- The tick result of processing `wRecNewGpu` from `wMgr [wRecNewGpu]`
at time 0. -/
def wTickNew : TickResult :=
  { mgr := { pendingChunkUpdates := [], chunkUpdateDeadline := none,
             chunkUpdateDelay := 30, sources := [(1, wSourceAfterNew)] },
    deferred := false, scheduledDelay := none, visibleDispatches := 1,
    processed := some wRecNewGpu, factoryInvoked := true }

/-- An empty source cache. -/
def wCacheEmpty : ChunkManager := { memoize := [], nextSourceId := 0 }

/-- A first parameter record. -/
def wParamsA : Params := [("a", 1)]

/-- A second parameter record differing from `wParamsA` in one field. -/
def wParamsB : Params := [("a", 2)]

/-- The canonical key for `wParamsA` under constructor 7. -/
def wKeyA : KeyObject := { parameters := wParamsA, constructorId := 7 }

/-- The canonical key for `wParamsB` under constructor 7. -/
def wKeyB : KeyObject := { parameters := wParamsB, constructorId := 7 }

/-- The cache after acquiring `wParamsA` once. -/
def wMgrCache₁ : ChunkManager := { memoize := [(wKeyA, 0)], nextSourceId := 1 }

/-- The cache after additionally acquiring `wParamsB`. -/
def wMgrCache₂ : ChunkManager :=
  { memoize := [(wKeyA, 0), (wKeyB, 1)], nextSourceId := 2 }

/-! ### Helper lemmas about the map model -/

theorem mapGet_mapSet_self {κ α : Type} [DecidableEq κ]
    (m : List (κ × α)) (k : κ) (v : α) : mapGet (mapSet m k v) k = some v := by
  induction m with
  | nil => simp [mapGet, mapSet]
  | cons kv rest ih =>
    obtain ⟨k', v'⟩ := kv
    by_cases h : k = k' <;> simp [mapGet, mapSet, h, ih]

theorem mapGet_mapSet_ne {κ α : Type} [DecidableEq κ]
    (m : List (κ × α)) (k k' : κ) (v : α) (h : k' ≠ k) :
    mapGet (mapSet m k v) k' = mapGet m k' := by
  induction m with
  | nil => simp [mapGet, mapSet, h]
  | cons kv rest ih =>
    obtain ⟨k₀, v₀⟩ := kv
    by_cases hk : k = k₀
    · subst hk; simp [mapGet, mapSet, h]
    · by_cases hk' : k' = k₀ <;> simp [mapGet, mapSet, hk, hk', ih]

theorem mapDelete_absent {κ α : Type} [DecidableEq κ]
    (m : List (κ × α)) (k : κ) (h : mapGet m k = none) : mapDelete m k = m := by
  induction m with
  | nil => simp [mapDelete]
  | cons kv rest ih =>
    obtain ⟨k₀, v₀⟩ := kv
    by_cases hk : k = k₀
    · simp [mapGet, hk] at h
    · simp [mapGet, hk] at h
      simp [mapDelete, hk, ih h]

theorem mapGet_mem_values {κ α : Type} [DecidableEq κ]
    (m : List (κ × α)) (k : κ) (v : α) (h : mapGet m k = some v) :
    v ∈ m.map Prod.snd := by
  induction m with
  | nil => simp [mapGet] at h
  | cons kv rest ih =>
    obtain ⟨k₀, v₀⟩ := kv
    by_cases hk : k = k₀
    · simp [mapGet, hk] at h
      simp [h]
    · simp [mapGet, hk] at h
      simp [ih h]

theorem mapGet_nodup_values_ne {κ α : Type} [DecidableEq κ]
    (m : List (κ × α)) (k k' : κ) (v v' : α)
    (hnd : (m.map Prod.snd).Nodup) (hkk : k ≠ k')
    (h : mapGet m k = some v) (h' : mapGet m k' = some v') : v ≠ v' := by
  induction m with
  | nil => simp [mapGet] at h
  | cons kv rest ih =>
    obtain ⟨k₀, v₀⟩ := kv
    simp only [List.map_cons, List.nodup_cons] at hnd
    by_cases hk : k = k₀
    · have hk' : k' ≠ k₀ := by
        intro hc; exact hkk (hk.trans hc.symm)
      simp [mapGet, hk] at h
      simp [mapGet, hk'] at h'
      subst h
      intro hc
      exact hnd.1 (hc ▸ mapGet_mem_values rest k' v' h')
    · by_cases hk' : k' = k₀
      · simp [mapGet, hk'] at h'
        simp [mapGet, hk] at h
        subst h'
        intro hc
        exact hnd.1 (hc ▸ mapGet_mem_values rest k v h)
      · simp [mapGet, hk] at h
        simp [mapGet, hk'] at h'
        exact ih hnd.2 h h'

theorem all_mapSet {κ α : Type} [DecidableEq κ]
    (P : α → Bool) (m : List (κ × α)) (k : κ) (v : α)
    (hm : m.all (fun kv => P kv.2) = true) (hv : P v = true) :
    (mapSet m k v).all (fun kv => P kv.2) = true := by
  induction m with
  | nil => simp [mapSet, hv]
  | cons kv rest ih =>
    obtain ⟨k₀, v₀⟩ := kv
    simp only [List.all_cons, Bool.and_eq_true] at hm
    by_cases hk : k = k₀
    · simp [mapSet, hk, hv, hm.2]
    · simp [mapSet, hk, hm.1, ih hm.2]

theorem all_mapDelete {κ α : Type} [DecidableEq κ]
    (P : α → Bool) (m : List (κ × α)) (k : κ)
    (hm : m.all (fun kv => P kv.2) = true) :
    (mapDelete m k).all (fun kv => P kv.2) = true := by
  induction m with
  | nil => simp [mapDelete]
  | cons kv rest ih =>
    obtain ⟨k₀, v₀⟩ := kv
    simp only [List.all_cons, Bool.and_eq_true] at hm
    by_cases hk : k = k₀
    · simp [mapDelete, hk, hm.2]
    · simp [mapDelete, hk, hm.1, ih hm.2]

theorem all_mapGet {κ α : Type} [DecidableEq κ]
    (P : α → Bool) (m : List (κ × α)) (k : κ) (v : α)
    (hm : m.all (fun kv => P kv.2) = true) (h : mapGet m k = some v) :
    P v = true := by
  induction m with
  | nil => simp [mapGet] at h
  | cons kv rest ih =>
    obtain ⟨k₀, v₀⟩ := kv
    simp only [List.all_cons, Bool.and_eq_true] at hm
    by_cases hk : k = k₀
    · simp [mapGet, hk] at h
      exact h ▸ hm.1
    · simp [mapGet, hk] at h
      exact ih hm.2 h

/-! ### Helper lemmas about one drain tick -/

theorem process_eq_processOne (m : ChunkQueueManager) (now : Int)
    (u : UpdateRecord) (rest : List UpdateRecord)
    (hdl : deadlinePassed m now = false)
    (hq : m.pendingChunkUpdates = u :: rest) :
    processPendingChunkUpdates m now = processOneRecord m u rest now := by
  unfold processPendingChunkUpdates
  rw [hdl, hq]
  simp

theorem step_ok_shape (m : ChunkQueueManager) (now : Int)
    (u : UpdateRecord) (rest : List UpdateRecord) (r : TickResult)
    (hdl : deadlinePassed m now = false)
    (hq : m.pendingChunkUpdates = u :: rest)
    (hr : processPendingChunkUpdates m now = .ok r) :
    r.processed = some u ∧ r.mgr.pendingChunkUpdates = rest ∧
      r.mgr.chunkUpdateDeadline = m.chunkUpdateDeadline ∧
      r.mgr.chunkUpdateDelay = m.chunkUpdateDelay ∧
      r.deferred = false ∧
      (r.scheduledDelay = none ↔ rest = []) := by
  rw [process_eq_processOne m now u rest hdl hq] at hr
  unfold processOneRecord at hr
  split at hr
  · exact absurd hr (by simp)
  · split at hr
    · simp only at hr
      cases hr
      refine ⟨rfl, rfl, rfl, rfl, rfl, ?_⟩
      rcases rest with _ | ⟨v, rest'⟩ <;> simp
    · simp only at hr
      split at hr
      · exact absurd hr (by simp)
      · cases hr
        refine ⟨rfl, rfl, rfl, rfl, rfl, ?_⟩
        rcases rest with _ | ⟨v, rest'⟩ <;> simp

theorem drainTicks_take_drop (now : Int) (n : Nat) :
    ∀ (m m' : ChunkQueueManager) (tr : List UpdateRecord),
      deadlinePassed m now = false → drainTicks m now n = .ok (m', tr) →
      tr = m.pendingChunkUpdates.take n ∧
        m'.pendingChunkUpdates = m.pendingChunkUpdates.drop n ∧
        deadlinePassed m' now = false := by
  induction n with
  | zero =>
    intro m m' tr hdl h
    unfold drainTicks at h
    cases h
    exact ⟨rfl, rfl, hdl⟩
  | succ n ih =>
    intro m m' tr hdl h
    unfold drainTicks at h
    by_cases hq : m.pendingChunkUpdates.isEmpty
    · rw [if_pos hq] at h
      cases h
      have hnil : m.pendingChunkUpdates = [] := by
        rcases hl : m.pendingChunkUpdates with _ | _
        · rfl
        · rw [hl] at hq; simp at hq
      simp [hnil, hdl]
    · rw [if_neg hq] at h
      obtain ⟨u, rest, hq'⟩ : ∃ u rest, m.pendingChunkUpdates = u :: rest := by
        rcases hl : m.pendingChunkUpdates with _ | ⟨u, rest⟩
        · rw [hl] at hq; simp at hq
        · exact ⟨u, rest, rfl⟩
      rcases hstep : processPendingChunkUpdates m now with e | r
      · rw [hstep] at h; exact absurd h (by simp)
      · rw [hstep] at h
        simp only at h
        have hs := step_ok_shape m now u rest r hdl hq' hstep
        have hdl' : deadlinePassed r.mgr now = false := by
          unfold deadlinePassed at hdl ⊢
          rw [hs.2.2.1]
          exact hdl
        rcases hrec : drainTicks r.mgr now n with e | p
        · rw [hrec] at h; exact absurd h (by simp)
        · obtain ⟨m₂, tr₂⟩ := p
          rw [hrec] at h
          cases h
          have hind := ih r.mgr _ _ hdl' hrec
          refine ⟨?_, ?_, hind.2.2⟩
          · rw [hs.1, hind.1, hs.2.1, hq']
            simp
          · rw [hind.2.1, hs.2.1, hq']
            simp

theorem applyTransition_sourceOk (source₁ : ChunkSource) (u : UpdateRecord)
    (chunk : Chunk) (factory : Bool) (s' : ChunkSource) (v : Nat) (f : Bool)
    (hs : sourceOk source₁ = true)
    (h : applyTransition source₁ u chunk factory = .ok (s', v, f)) :
    sourceOk s' = true := by
  have hs' : source₁.chunks.all (fun kv => chunkOk kv.2) = true := hs
  unfold applyTransition at h
  split at h
  · cases h; exact hs
  · split at h
    · cases h
      show (mapSet source₁.chunks u.id chunk.copyToGPU).all
        (fun kv => chunkOk kv.2) = true
      exact all_mapSet _ _ _ _ hs' (by simp [chunkOk, Chunk.copyToGPU])
    · cases h
      show (mapSet source₁.chunks u.id chunk.freeGPUMemory).all
        (fun kv => chunkOk kv.2) = true
      exact all_mapSet _ _ _ _ hs' (by simp [chunkOk, Chunk.freeGPUMemory])
    · exact absurd h (by simp)

theorem applyNonExpired_sourceOk (source : ChunkSource) (u : UpdateRecord)
    (s' : ChunkSource) (v : Nat) (f : Bool)
    (hs : sourceOk source = true)
    (h : applyNonExpired source u = .ok (s', v, f)) : sourceOk s' = true := by
  have hs' : source.chunks.all (fun kv => chunkOk kv.2) = true := hs
  unfold applyNonExpired at h
  split at h
  · split at h
    · exact absurd h (by simp)
    · refine applyTransition_sourceOk _ _ _ _ _ _ _ ?_ h
      rename_i c hc
      show (mapSet source.chunks u.id c).all (fun kv => chunkOk kv.2) = true
      refine all_mapSet _ _ _ _ hs' ?_
      unfold getChunkDispatch at hc
      split at hc
      · cases hc; simp [chunkOk, Chunk.init]
      · exact absurd hc (by simp [ChunkSource.getChunk])
  · split at h
    · exact absurd h (by simp)
    · exact applyTransition_sourceOk _ _ _ _ _ _ _ hs h

theorem step_preserves_chunksOk (m : ChunkQueueManager) (now : Int)
    (r : TickResult) (hok : managerChunksOk m = true)
    (hr : processPendingChunkUpdates m now = .ok r) :
    managerChunksOk r.mgr = true := by
  unfold processPendingChunkUpdates at hr
  split at hr
  · cases hr; exact hok
  · split at hr
    · exact absurd hr (by simp)
    · rename_i u rest _
      unfold processOneRecord at hr
      split at hr
      · exact absurd hr (by simp)
      · rename_i source hsget
        have hok' : m.sources.all (fun kv => sourceOk kv.2) = true := hok
        have hsok : sourceOk source = true := all_mapGet _ _ _ _ hok' hsget
        split at hr
        · simp only at hr
          cases hr
          show (mapSet m.sources u.source (source.deleteChunk u.id)).all
            (fun kv => sourceOk kv.2) = true
          refine all_mapSet _ _ _ _ hok' ?_
          have hsok' : source.chunks.all (fun kv => chunkOk kv.2) = true := hsok
          show (mapDelete source.chunks u.id).all (fun kv => chunkOk kv.2) = true
          exact all_mapDelete _ _ _ hsok'
        · simp only at hr
          split at hr
          · exact absurd hr (by simp)
          · rename_i s' v f happ
            cases hr
            show (mapSet m.sources u.source s').all (fun kv => sourceOk kv.2) = true
            refine all_mapSet _ _ _ _ hok' ?_
            exact applyNonExpired_sourceOk _ _ _ _ _ hsok happ

theorem drainTicks_preserves_chunksOk (now : Int) (n : Nat) :
    ∀ (m m' : ChunkQueueManager) (tr : List UpdateRecord),
      managerChunksOk m = true → drainTicks m now n = .ok (m', tr) →
      managerChunksOk m' = true := by
  induction n with
  | zero =>
    intro m m' tr hok h
    unfold drainTicks at h
    cases h
    exact hok
  | succ n ih =>
    intro m m' tr hok h
    unfold drainTicks at h
    by_cases hq : m.pendingChunkUpdates.isEmpty
    · rw [if_pos hq] at h; cases h; exact hok
    · rw [if_neg hq] at h
      rcases hstep : processPendingChunkUpdates m now with e | r
      · rw [hstep] at h; exact absurd h (by simp)
      · rw [hstep] at h
        simp only at h
        rcases hrec : drainTicks r.mgr now n with e | p
        · rw [hrec] at h; exact absurd h (by simp)
        · obtain ⟨m₂, tr₂⟩ := p
          rw [hrec] at h
          cases h
          exact ih r.mgr _ _ (step_preserves_chunksOk m now r hok hstep) hrec

/-! ### The claims -/

/-- Claim C1: for every drain tick of `processPendingChunkUpdates`, if a
deadline is set and the current time is past it, the tick processes no
record — no promotion is started, the pending-update queue and every
chunk's state are left unchanged — and a re-check is scheduled after the
fallback delay `chunkUpdateDelay` instead. -/
theorem claim1_past_deadline_defers (m : ChunkQueueManager) (now d : Int)
    (hd : m.chunkUpdateDeadline = some d) (hpast : d < now) :
    processPendingChunkUpdates m now =
      .ok { mgr := m, deferred := true,
            scheduledDelay := some m.chunkUpdateDelay,
            visibleDispatches := 0, processed := none,
            factoryInvoked := false } := by
  unfold processPendingChunkUpdates deadlinePassed
  rw [hd]
  simp [hpast]

theorem claim1_witness :
    processPendingChunkUpdates wMgrLate 100 =
      .ok { mgr := wMgrLate, deferred := true, scheduledDelay := some 30,
            visibleDispatches := 0, processed := none,
            factoryInvoked := false } :=
  claim1_past_deadline_defers wMgrLate 100 50 rfl (by decide)

/-- Claim C5: a record whose target state is `EXPIRED` is processed by
removing the chunk-id from its source's mapping unconditionally —
whatever the chunk's current state and the record's new flag — with no
chunk created or materialized (the factory is not invoked and the
resulting source differs from the old one only by the deletion), and
deleting an absent id is a no-op. -/
theorem claim5_expired_unconditional_removal (m : ChunkQueueManager)
    (now : Int) (u : UpdateRecord) (rest : List UpdateRecord)
    (source : ChunkSource)
    (hdl : deadlinePassed m now = false)
    (hq : m.pendingChunkUpdates = u :: rest)
    (hex : u.state = ChunkState.EXPIRED)
    (hs : mapGet m.sources u.source = some source) :
    processPendingChunkUpdates m now =
      .ok { mgr := { m with
              pendingChunkUpdates := rest,
              sources := mapSet m.sources u.source
                (source.deleteChunk u.id) },
            deferred := false,
            scheduledDelay := if rest.isEmpty then none
                              else some (scheduleChunkUpdateDelay m now),
            visibleDispatches := 0, processed := some u,
            factoryInvoked := false } ∧
    (mapGet source.chunks u.id = none → source.deleteChunk u.id = source) := by
  constructor
  · rw [process_eq_processOne m now u rest hdl hq]
    unfold processOneRecord
    rw [hs]
    simp [hex]
  · intro habs
    unfold ChunkSource.deleteChunk
    rw [mapDelete_absent _ _ habs]

theorem claim5_witness :
    (processPendingChunkUpdates (wMgr [wRecExpired]) 0 =
      .ok { mgr := { wMgr [wRecExpired] with
              pendingChunkUpdates := [],
              sources := mapSet (wMgr [wRecExpired]).sources 1
                (wSource.deleteChunk "c1") },
            deferred := false, scheduledDelay := none,
            visibleDispatches := 0, processed := some wRecExpired,
            factoryInvoked := false } ∧
      (mapGet wSource.chunks "c1" = none →
        wSource.deleteChunk "c1" = wSource)) ∧
    wSourceNoFactory.deleteChunk "c9" = wSourceNoFactory := by
  constructor
  · exact claim5_expired_unconditional_removal (wMgr [wRecExpired]) 0
      wRecExpired [] wSource rfl rfl rfl rfl
  · exact (claim5_expired_unconditional_removal
      { pendingChunkUpdates := [{ wRecExpired with id := "c9" }],
        chunkUpdateDeadline := none, chunkUpdateDelay := 30,
        sources := [(1, wSourceNoFactory)] } 0
      { wRecExpired with id := "c9" } [] wSourceNoFactory
      rfl rfl rfl rfl).2 rfl

/-- Claim C7: promotion and demotion are inverse with respect to the
fast-tier capacity accounting: promoting a chunk increases `used` by the
chunk's payload size, and `used` after promoting and then demoting that
same chunk equals its value before the promotion. -/
theorem claim7_promote_demote_inverse (cap : AvailableCapacity) (c : Chunk)
    (size : Nat) :
    (promote cap c size).1.used = cap.used + size ∧
    (demote (promote cap c size).1 (promote cap c size).2 size).1.used
      = cap.used := by
  simp [promote, demote]

/-- Claim C10: a record with the new flag unset, a non-`EXPIRED` target
state, and a chunk-id absent from the target source's mapping makes the
drain tick fail when the missing chunk's state is read (the unguarded
lookup at line 108 yields nothing and line 110 faults) rather than being
treated as a no-op. -/
theorem claim10_missing_chunk_faults (m : ChunkQueueManager) (now : Int)
    (u : UpdateRecord) (rest : List UpdateRecord) (source : ChunkSource)
    (hdl : deadlinePassed m now = false)
    (hq : m.pendingChunkUpdates = u :: rest)
    (hs : mapGet m.sources u.source = some source)
    (hnew : u.isNew = false)
    (hnex : u.state ≠ ChunkState.EXPIRED)
    (habs : mapGet source.chunks u.id = none) :
    processPendingChunkUpdates m now =
      .error (ChunkError.missingChunk u.id) := by
  rw [process_eq_processOne m now u rest hdl hq]
  unfold processOneRecord
  rw [hs]
  simp only
  rw [if_neg hnex]
  unfold applyNonExpired
  rw [hnew]
  simp [habs]

theorem claim10_witness :
    processPendingChunkUpdates (wMgr [wRecMissing]) 0 =
      .error (ChunkError.missingChunk "c9") :=
  claim10_missing_chunk_faults (wMgr [wRecMissing]) 0 wRecMissing []
    wSource rfl rfl rfl rfl (by decide) rfl

/-- Claim C2: the `Chunk.update` handler appends at the queue tail, a
drain tick pops only the queue head and processes exactly that one
record, a further tick is scheduled exactly when records remain, and
consequently `n` ticks apply exactly the first `n` records in their
enqueue order. -/
theorem claim2_fifo_single_record (m : ChunkQueueManager) (x u : UpdateRecord)
    (rest : List UpdateRecord) (r : TickResult) (now : Int) (n : Nat)
    (m' : ChunkQueueManager) (tr : List UpdateRecord) :
    (chunkUpdateRPC m x).1.pendingChunkUpdates
        = m.pendingChunkUpdates ++ [x] ∧
    (deadlinePassed m now = false → m.pendingChunkUpdates = u :: rest →
      processPendingChunkUpdates m now = .ok r →
      r.processed = some u ∧ r.mgr.pendingChunkUpdates = rest ∧
        (r.scheduledDelay = none ↔ rest = [])) ∧
    (deadlinePassed m now = false → drainTicks m now n = .ok (m', tr) →
      tr = m.pendingChunkUpdates.take n ∧
        m'.pendingChunkUpdates = m.pendingChunkUpdates.drop n) := by
  refine ⟨?_, ?_, ?_⟩
  · unfold chunkUpdateRPC
    by_cases hq : m.pendingChunkUpdates.isEmpty = true
    · have hnil : m.pendingChunkUpdates = [] := by
        rcases hl : m.pendingChunkUpdates with _ | _
        · rfl
        · rw [hl] at hq; simp at hq
      simp [hq, hnil]
    · simp [hq]
  · intro hdl hq hr
    have hs := step_ok_shape m now u rest r hdl hq hr
    exact ⟨hs.1, hs.2.1, hs.2.2.2.2.2⟩
  · intro hdl hd
    have h := drainTicks_take_drop now n m m' tr hdl hd
    exact ⟨h.1, h.2.1⟩

theorem claim2_witness :
    ((chunkUpdateRPC (wMgr wQ2) wRecExpired).1.pendingChunkUpdates
        = (wMgr wQ2).pendingChunkUpdates ++ [wRecExpired]) ∧
    (wTick2.processed = some wRecPromote ∧
      wTick2.mgr.pendingChunkUpdates = [wRecDemote] ∧
      (wTick2.scheduledDelay = none ↔
        ([wRecDemote] : List UpdateRecord) = [])) ∧
    (wQ2 = (wMgr wQ2).pendingChunkUpdates.take 2 ∧
      wMgrDrained.pendingChunkUpdates
        = (wMgr wQ2).pendingChunkUpdates.drop 2) := by
  have h := claim2_fifo_single_record (wMgr wQ2) wRecExpired wRecPromote
    [wRecDemote] wTick2 0 2 wMgrDrained wQ2
  exact ⟨h.1, h.2.1 rfl rfl rfl, h.2.2 rfl rfl⟩

theorem applyTransition_visible (source₁ : ChunkSource) (u : UpdateRecord)
    (chunk : Chunk) (factory : Bool) (s' : ChunkSource) (v : Nat) (f : Bool)
    (h : applyTransition source₁ u chunk factory = .ok (s', v, f)) :
    v = if u.state = ChunkState.GPU_MEMORY ∧ u.state ≠ chunk.state
        then 1 else 0 := by
  unfold applyTransition at h
  split at h
  · rename_i heq
    cases h
    rw [if_neg]
    rintro ⟨_, hne⟩
    exact hne heq
  · rename_i hne
    split at h
    · cases h
      rename_i hgpu
      rw [if_pos ⟨hgpu, fun hc => hne hc⟩]
    · cases h
      rename_i hsys
      rw [if_neg]
      rintro ⟨hgpu, _⟩
      rw [hsys] at hgpu
      exact absurd hgpu (by decide)
    · exact absurd h (by simp)

theorem applyNonExpired_visible (source : ChunkSource) (u : UpdateRecord)
    (s' : ChunkSource) (v : Nat) (f : Bool)
    (h : applyNonExpired source u = .ok (s', v, f)) :
    ∃ old, recordOldState source u = some old ∧
      v = if u.state = ChunkState.GPU_MEMORY ∧ u.state ≠ old
          then 1 else 0 := by
  unfold applyNonExpired at h
  split at h
  · rename_i hnew
    split at h
    · exact absurd h (by simp)
    · rename_i c hc
      have hcx : c = Chunk.init := by
        unfold getChunkDispatch at hc
        split at hc
        · cases hc; rfl
        · exact absurd hc (by simp [ChunkSource.getChunk])
      refine ⟨ChunkState.SYSTEM_MEMORY, by simp [recordOldState, hnew], ?_⟩
      have hv := applyTransition_visible _ _ _ _ _ _ _ h
      rw [hv, hcx]
      rfl
  · rename_i hnew
    split at h
    · exact absurd h (by simp)
    · rename_i c hc
      refine ⟨c.state, ?_, applyTransition_visible _ _ _ _ _ _ _ h⟩
      simp only [recordOldState, hc]
      rw [if_neg hnew]
      rfl

theorem applyTransition_invalid (source₁ : ChunkSource) (u : UpdateRecord)
    (chunk : Chunk) (factory : Bool) (s : ChunkState)
    (h : applyTransition source₁ u chunk factory =
      .error (ChunkError.invalidChunkState s)) :
    u.state = s ∧ u.state ≠ ChunkState.GPU_MEMORY ∧
      u.state ≠ ChunkState.SYSTEM_MEMORY := by
  unfold applyTransition at h
  split at h
  · exact absurd h (by simp)
  · split at h
    · exact absurd h (by simp)
    · exact absurd h (by simp)
    · rename_i st hg2 hsy2
      injection h with h2
      injection h2 with h3
      exact ⟨h3, fun hc => hg2 hc, fun hc => hsy2 hc⟩

theorem applyNonExpired_invalid (source : ChunkSource) (u : UpdateRecord)
    (s : ChunkState)
    (h : applyNonExpired source u = .error (ChunkError.invalidChunkState s)) :
    u.state = s ∧ u.state ≠ ChunkState.GPU_MEMORY ∧
      u.state ≠ ChunkState.SYSTEM_MEMORY := by
  unfold applyNonExpired at h
  split at h
  · split at h
    · rename_i e he
      injection h with h2
      subst h2
      unfold getChunkDispatch at he
      split at he
      · exact absurd he (by simp)
      · simp [ChunkSource.getChunk] at he
    · exact applyTransition_invalid _ _ _ _ _ h
  · split at h
    · exact absurd h (by simp)
    · exact applyTransition_invalid _ _ _ _ _ h

theorem processOneRecord_invalid (m : ChunkQueueManager) (u : UpdateRecord)
    (rest : List UpdateRecord) (now : Int) (s : ChunkState)
    (h : processOneRecord m u rest now =
      .error (ChunkError.invalidChunkState s)) :
    u.state = s ∧ u.state ≠ ChunkState.GPU_MEMORY ∧
      u.state ≠ ChunkState.SYSTEM_MEMORY ∧
      u.state ≠ ChunkState.EXPIRED := by
  unfold processOneRecord at h
  split at h
  · exact absurd h (by simp)
  · split at h
    · simp only at h
      exact absurd h (by simp)
    · rename_i hex
      simp only at h
      split at h
      · rename_i e he
        injection h with h2
        subst h2
        have hi := applyNonExpired_invalid _ _ _ he
        exact ⟨hi.1, hi.2.1, hi.2.2, hex⟩
      · exact absurd h (by simp)

/-- Claim C6: a processed record whose target state lies outside
`GPU_MEMORY`, `SYSTEM_MEMORY` and `EXPIRED` makes the drain tick throw
the `Invalid chunk state` error rather than silently ignoring the
record; for records carrying one of the three valid target states that
error branch is unreachable. -/
theorem claim6_invalid_state_fatal (m : ChunkQueueManager) (now : Int)
    (u : UpdateRecord) (rest : List UpdateRecord) (source : ChunkSource)
    (oldSt : ChunkState)
    (hdl : deadlinePassed m now = false)
    (hq : m.pendingChunkUpdates = u :: rest)
    (hs : mapGet m.sources u.source = some source) :
    (u.state ≠ ChunkState.GPU_MEMORY → u.state ≠ ChunkState.SYSTEM_MEMORY →
      u.state ≠ ChunkState.EXPIRED →
      (u.isNew = true → source.hasGetChunk = true) →
      recordOldState source u = some oldSt → oldSt ≠ u.state →
      processPendingChunkUpdates m now =
        .error (ChunkError.invalidChunkState u.state)) ∧
    ((u.state = ChunkState.GPU_MEMORY ∨ u.state = ChunkState.SYSTEM_MEMORY ∨
        u.state = ChunkState.EXPIRED) →
      ∀ s, processPendingChunkUpdates m now ≠
        .error (ChunkError.invalidChunkState s)) := by
  constructor
  · intro hg hsy hex hfac hold hne
    have happ : applyNonExpired source u =
        .error (ChunkError.invalidChunkState u.state) := by
      unfold applyNonExpired
      by_cases hnew : u.isNew = true
      · rw [if_pos hnew]
        unfold getChunkDispatch
        rw [if_pos (hfac hnew)]
        simp only
        unfold applyTransition
        simp only [Chunk.init]
        rw [if_neg hsy]
      · rw [if_neg hnew]
        have hmg : ∃ c, mapGet source.chunks u.id = some c ∧ c.state = oldSt := by
          unfold recordOldState at hold
          rw [if_neg hnew] at hold
          rcases hmg : mapGet source.chunks u.id with _ | c
          · rw [hmg] at hold; simp at hold
          · rw [hmg] at hold; simp at hold; exact ⟨c, rfl, hold⟩
        obtain ⟨c, hmg, hcs⟩ := hmg
        rw [hmg]
        simp only
        unfold applyTransition
        rw [if_neg (by rw [hcs]; exact fun hc => hne hc.symm)]
        split
        · rename_i hgpu; exact absurd hgpu hg
        · rename_i hsys; exact absurd hsys hsy
        · rfl
    rw [process_eq_processOne m now u rest hdl hq]
    unfold processOneRecord
    rw [hs]
    simp only
    rw [if_neg hex, happ]
  · intro hval s hcontra
    rw [process_eq_processOne m now u rest hdl hq] at hcontra
    have hinv := processOneRecord_invalid _ _ _ _ _ hcontra
    rcases hval with hg | hsy | hex
    · exact hinv.2.1 hg
    · exact hinv.2.2.1 hsy
    · exact hinv.2.2.2 hex

theorem claim6_witness :
    (processPendingChunkUpdates (wMgr [wRecInvalid]) 0 =
      .error (ChunkError.invalidChunkState ChunkState.REMOTE)) ∧
    processPendingChunkUpdates (wMgr wQ2) 0 ≠
      .error (ChunkError.invalidChunkState ChunkState.REMOTE) := by
  constructor
  · exact (claim6_invalid_state_fatal (wMgr [wRecInvalid]) 0 wRecInvalid []
      wSource ChunkState.SYSTEM_MEMORY rfl rfl rfl).1
      (by decide) (by decide) (by decide) (fun _ => rfl) rfl
      (by decide)
  · exact (claim6_invalid_state_fatal (wMgr wQ2) 0 wRecPromote [wRecDemote]
      wSource ChunkState.SYSTEM_MEMORY rfl rfl rfl).2
      (Or.inl rfl) ChunkState.REMOTE

/-- Claim C3: a processed record dispatches `visibleChunksChanged`
exactly once if and only if it moves its chunk into the fast tier (target
state `GPU_MEMORY` differing from the chunk's current state), and never
for demotions, for no-op records whose target equals the current state,
or for `EXPIRED` records. -/
theorem claim3_visibility_iff_promotion (m : ChunkQueueManager) (now : Int)
    (u : UpdateRecord) (rest : List UpdateRecord) (source : ChunkSource)
    (r : TickResult)
    (hdl : deadlinePassed m now = false)
    (hq : m.pendingChunkUpdates = u :: rest)
    (hs : mapGet m.sources u.source = some source)
    (hr : processPendingChunkUpdates m now = .ok r) :
    r.visibleDispatches =
      if u.state = ChunkState.GPU_MEMORY ∧
         recordOldState source u ≠ some ChunkState.GPU_MEMORY
      then 1 else 0 := by
  rw [process_eq_processOne m now u rest hdl hq] at hr
  unfold processOneRecord at hr
  rw [hs] at hr
  simp only at hr
  by_cases hex : u.state = ChunkState.EXPIRED
  · rw [if_pos hex] at hr
    simp only at hr
    cases hr
    have hnc : ¬(u.state = ChunkState.GPU_MEMORY ∧
        recordOldState source u ≠ some ChunkState.GPU_MEMORY) := by
      rintro ⟨hgpu, _⟩
      rw [hex] at hgpu
      exact absurd hgpu (by decide)
    rw [if_neg hnc]
  · rw [if_neg hex] at hr
    split at hr
    · exact absurd hr (by simp)
    · rename_i happ
      cases hr
      obtain ⟨old, hold, hv⟩ := applyNonExpired_visible _ _ _ _ _ happ
      rw [hold, hv]
      by_cases hg : u.state = ChunkState.GPU_MEMORY
      · by_cases ho : old = ChunkState.GPU_MEMORY
        · simp [hg, ho]
        · simp [hg, ho, Ne, eq_comm]
      · simp [hg]

theorem claim3_witness :
    wTick2.visibleDispatches =
      if wRecPromote.state = ChunkState.GPU_MEMORY ∧
         recordOldState wSource wRecPromote ≠ some ChunkState.GPU_MEMORY
      then 1 else 0 :=
  claim3_visibility_iff_promotion (wMgr wQ2) 0 wRecPromote [wRecDemote]
    wSource wTick2 rfl rfl rfl rfl

theorem applyTransition_factory (source₁ : ChunkSource) (u : UpdateRecord)
    (chunk : Chunk) (factory : Bool) (s' : ChunkSource) (v : Nat) (f : Bool)
    (h : applyTransition source₁ u chunk factory = .ok (s', v, f)) :
    f = factory := by
  unfold applyTransition at h
  split at h
  · cases h; rfl
  · split at h
    · cases h; rfl
    · cases h; rfl
    · exact absurd h (by simp)

theorem applyTransition_never_notImplemented (source₁ : ChunkSource)
    (u : UpdateRecord) (chunk : Chunk) (factory : Bool)
    (h : applyTransition source₁ u chunk factory =
      .error ChunkError.notImplemented) : False := by
  unfold applyTransition at h
  split at h
  · exact absurd h (by simp)
  · split at h
    · exact absurd h (by simp)
    · exact absurd h (by simp)
    · injection h with h2
      exact absurd h2 (by simp)

theorem applyNonExpired_factory (source : ChunkSource) (u : UpdateRecord)
    (s' : ChunkSource) (v : Nat) (f : Bool)
    (h : applyNonExpired source u = .ok (s', v, f)) : f = u.isNew := by
  unfold applyNonExpired at h
  split at h
  · rename_i hnew
    split at h
    · exact absurd h (by simp)
    · rw [applyTransition_factory _ _ _ _ _ _ _ h, hnew]
  · rename_i hnew
    split at h
    · exact absurd h (by simp)
    · rw [applyTransition_factory _ _ _ _ _ _ _ h,
        (Bool.not_eq_true u.isNew).mp hnew]

theorem applyNonExpired_notImplemented (source : ChunkSource)
    (u : UpdateRecord)
    (h : applyNonExpired source u = .error ChunkError.notImplemented) :
    u.isNew = true ∧ source.hasGetChunk = false := by
  unfold applyNonExpired at h
  split at h
  · rename_i hnew
    split at h
    · rename_i e he
      refine ⟨hnew, ?_⟩
      unfold getChunkDispatch at he
      split at he
      · exact absurd he (by simp)
      · rename_i hfac
        exact (Bool.not_eq_true source.hasGetChunk).mp hfac
    · exact absurd (applyTransition_never_notImplemented _ _ _ _ h) (by simp)
  · split at h
    · exact absurd h (by simp)
    · exact absurd (applyTransition_never_notImplemented _ _ _ _ h) (by simp)

/-- Claim C8: the default `ChunkSource.getChunk` factory raises the
`Not implemented` error for every input; during a drain tick the factory
is invoked only for records flagged new with a non-`EXPIRED` target
state, and on a source that does not override the factory such a record
makes the tick fail with exactly that error. -/
theorem claim8_default_factory_fatal (m : ChunkQueueManager) (now : Int)
    (u : UpdateRecord) (rest : List UpdateRecord) (source : ChunkSource)
    (hdl : deadlinePassed m now = false)
    (hq : m.pendingChunkUpdates = u :: rest)
    (hs : mapGet m.sources u.source = some source) :
    (∀ (s : ChunkSource) (x : UpdateRecord),
      s.getChunk x = .error ChunkError.notImplemented) ∧
    (∀ r, processPendingChunkUpdates m now = .ok r → r.factoryInvoked = true →
      u.isNew = true ∧ u.state ≠ ChunkState.EXPIRED) ∧
    (processPendingChunkUpdates m now = .error ChunkError.notImplemented →
      u.isNew = true ∧ u.state ≠ ChunkState.EXPIRED) ∧
    (source.hasGetChunk = false → u.isNew = true →
      u.state ≠ ChunkState.EXPIRED →
      processPendingChunkUpdates m now =
        .error ChunkError.notImplemented) := by
  refine ⟨fun s x => rfl, ?_, ?_, ?_⟩
  · intro r hr hfac
    rw [process_eq_processOne m now u rest hdl hq] at hr
    unfold processOneRecord at hr
    rw [hs] at hr
    simp only at hr
    split at hr
    · exact absurd hr (by simp)
    · rename_i s' v f hex
      cases hr
      split at hex
      · simp only [Except.ok.injEq, Prod.mk.injEq] at hex
        obtain ⟨h1, h2, h3⟩ := hex
        subst h3
        simp at hfac
      · rename_i hex2
        have hf : f = u.isNew := applyNonExpired_factory _ _ _ _ _ hex
        simp only at hfac
        exact ⟨hf ▸ hfac, hex2⟩
  · intro herr
    rw [process_eq_processOne m now u rest hdl hq] at herr
    unfold processOneRecord at herr
    rw [hs] at herr
    simp only at herr
    split at herr
    · rename_i e hex
      injection herr with h2
      subst h2
      split at hex
      · exact absurd hex (by simp)
      · rename_i hex2
        exact ⟨(applyNonExpired_notImplemented _ _ hex).1, hex2⟩
    · exact absurd herr (by simp)
  · intro hfac hnew hnex
    rw [process_eq_processOne m now u rest hdl hq]
    unfold processOneRecord
    rw [hs]
    simp only
    rw [if_neg hnex]
    unfold applyNonExpired
    rw [if_pos hnew]
    unfold getChunkDispatch
    rw [if_neg (by simp [hfac])]
    simp [ChunkSource.getChunk]

theorem claim8_witness :
    (wSourceNoFactory.getChunk wRecNewGpu =
      .error ChunkError.notImplemented) ∧
    (wRecNewGpu.isNew = true ∧ wRecNewGpu.state ≠ ChunkState.EXPIRED) ∧
    (processPendingChunkUpdates (wMgrNoFactory [wRecNewGpu]) 0 =
      .error ChunkError.notImplemented) := by
  have hA := claim8_default_factory_fatal (wMgrNoFactory [wRecNewGpu]) 0
    wRecNewGpu [] wSourceNoFactory rfl rfl rfl
  have hB := claim8_default_factory_fatal (wMgr [wRecNewGpu]) 0
    wRecNewGpu [] wSource rfl rfl rfl
  exact ⟨hA.1 wSourceNoFactory wRecNewGpu, hB.2.1 wTickNew rfl rfl,
    hA.2.2.2 rfl rfl (by decide)⟩

/-- Claim C9: every chunk is constructed in the `SYSTEM_MEMORY`
(Resident) state — never Remote — and both a single drain tick and any
sequence of drain ticks keep every chunk stored in every source's
mapping in the `SYSTEM_MEMORY` or `GPU_MEMORY` state, the only states
`copyToGPU` and `freeGPUMemory` produce. -/
theorem claim9_stored_states_invariant (m : ChunkQueueManager) (now : Int)
    (n : Nat) (m' : ChunkQueueManager) (tr : List UpdateRecord)
    (r : TickResult) :
    Chunk.init.state = ChunkState.SYSTEM_MEMORY ∧
    (managerChunksOk m = true → processPendingChunkUpdates m now = .ok r →
      managerChunksOk r.mgr = true) ∧
    (managerChunksOk m = true → drainTicks m now n = .ok (m', tr) →
      managerChunksOk m' = true) :=
  ⟨rfl, fun hok hr => step_preserves_chunksOk m now r hok hr,
    fun hok hd => drainTicks_preserves_chunksOk now n m m' tr hok hd⟩

theorem claim9_witness :
    Chunk.init.state = ChunkState.SYSTEM_MEMORY ∧
    managerChunksOk wTick2.mgr = true ∧
    managerChunksOk wMgrDrained = true := by
  have h := claim9_stored_states_invariant (wMgr wQ2) 0 2 wMgrDrained wQ2
    wTick2
  exact ⟨h.1, h.2.1 (by decide) rfl, h.2.2 (by decide) rfl⟩

/-- Claim C4: `getChunkSource` is idempotent under canonicalization: two
calls with the same constructor and equal parameter records return the
identical cached source instance with no reconstruction and no cache
mutation, while two calls whose parameter records differ in any field
return distinct instances. -/
theorem claim4_source_cache_canonical (m m₁ m₂ : ChunkManager) (cid : Nat)
    (p q : Params) (s₁ s₂ : Nat) :
    (getChunkSource m cid p = (m₁, s₁) →
      getChunkSource m₁ cid p = (m₂, s₂) → m₂ = m₁ ∧ s₂ = s₁) ∧
    (managerWF m = true → p ≠ q →
      getChunkSource m cid p = (m₁, s₁) →
      getChunkSource m₁ cid q = (m₂, s₂) → s₂ ≠ s₁) := by
  constructor
  · intro h1 h2
    unfold getChunkSource at h1 h2
    simp only [stableStringify, encodeOptions] at h1 h2
    rcases hget : mapGet m.memoize
        ({ parameters := p, constructorId := cid } : KeyObject) with _ | v
    · rw [hget] at h1
      cases h1
      rw [mapGet_mapSet_self] at h2
      cases h2
      exact ⟨rfl, rfl⟩
    · rw [hget] at h1
      cases h1
      rw [hget] at h2
      cases h2
      exact ⟨rfl, rfl⟩
  · intro hwf hpq h1 h2
    have hwf1 : m.memoize.all
        (fun kv => decide (kv.2 < m.nextSourceId)) = true :=
      (Bool.and_eq_true _ _ |>.mp hwf).1
    have hwf2 : (m.memoize.map Prod.snd).Nodup :=
      of_decide_eq_true (Bool.and_eq_true _ _ |>.mp hwf).2
    have hkk : ({ parameters := p, constructorId := cid } : KeyObject) ≠
        { parameters := q, constructorId := cid } := by
      intro hc
      exact hpq (congrArg KeyObject.parameters hc)
    unfold getChunkSource at h1 h2
    simp only [stableStringify, encodeOptions] at h1 h2
    rcases hget : mapGet m.memoize
        ({ parameters := p, constructorId := cid } : KeyObject) with _ | v
    · rw [hget] at h1
      cases h1
      rw [mapGet_mapSet_ne m.memoize _ _ _ (Ne.symm hkk)] at h2
      rcases hget2 : mapGet m.memoize
          ({ parameters := q, constructorId := cid } : KeyObject) with _ | v2
      · rw [hget2] at h2
        cases h2
        simp
      · rw [hget2] at h2
        cases h2
        have hv2 : s₂ < m.nextSourceId :=
          of_decide_eq_true (all_mapGet
            (fun n => decide (n < m.nextSourceId)) m.memoize _ s₂ hwf1 hget2)
        exact Nat.ne_of_lt hv2
    · rw [hget] at h1
      cases h1
      rcases hget2 : mapGet m.memoize
          ({ parameters := q, constructorId := cid } : KeyObject) with _ | v2
      · rw [hget2] at h2
        cases h2
        have hv : s₁ < m.nextSourceId :=
          of_decide_eq_true (all_mapGet
            (fun n => decide (n < m.nextSourceId)) m.memoize _ s₁ hwf1 hget)
        exact Ne.symm (Nat.ne_of_lt hv)
      · rw [hget2] at h2
        cases h2
        exact Ne.symm (mapGet_nodup_values_ne m.memoize _ _ s₁ s₂ hwf2 hkk
          hget hget2)

theorem claim4_witness :
    (wMgrCache₁ = wMgrCache₁ ∧ (0 : Nat) = 0) ∧ (1 : Nat) ≠ 0 := by
  have h1 := (claim4_source_cache_canonical wCacheEmpty wMgrCache₁
    wMgrCache₁ 7 wParamsA wParamsA 0 0).1 rfl rfl
  have h2 := (claim4_source_cache_canonical wMgrCache₁ wMgrCache₁
    wMgrCache₂ 7 wParamsA wParamsB 0 1).2 (by decide) (by decide) rfl rfl
  exact ⟨h1, h2⟩

end ChunkFrontend
